import Mathlib

/-!
Verification of the schema-reconciliation / migration-code generator of the
`better-lucid` repository (the Lucid adapter for better-auth).

The definitions below are a shallow embedding, translated function by
function from the TypeScript source (the schema-generation half of the
adapter module): `camelToSnake`, `getColumnName`, `getKnexType`,
`buildColumnChain`, `generateCreateTableBlock`, `wrapInBaseSchema` and
`generateLucidMigration`.

Modelling decisions:
* JavaScript strings are Lean `String`s; character classes of the regexes
  involved (`[A-Z]`, `\w`) are ASCII, matching `Char.isUpper` /
  alphanumeric-or-underscore on ASCII input.  `String.toLowerCase` is
  modelled with `Char.toLower`, which agrees on ASCII.
* A JS object (`Record<string, _>`) is a `List (String × _)` in key
  insertion order; `Object.values` / `Object.entries` iterate that order,
  and indexing is `List.lookup` (JS objects have unique keys).
* A JS `Set` is a `List` in insertion order; `Set.has` is `List.contains`.
* The catalog snapshot (results of the two `information_schema` queries)
  is passed in as data, and the clock used for the migration filename is a
  `timestamp` parameter, so that `generateLucidMigration` is a pure
  function of its inputs exactly as the TS function is a pure function of
  the catalog rows, the schema and the clock.
* JavaScript's `Array.prototype.sort` is stable (ES2019); the single sort
  in the source, by `(a.order ?? 999) - (b.order ?? 999)`, is therefore
  modelled by `List.insertionSort` on `order ?? 999`, which is stable.
-/

/-- Character code 39, the single-quote character used throughout the
generated migration text. -/
def quoteChar : Char := Char.ofNat 39

/-- Character `_`, used by the camel-to-snake conversion. -/
def underscoreChar : Char := '_'

/-- Join a list of strings with a separator, exactly JS `Array.join`. -/
def joinSep (sep : String) : List String → String
  | [] => ""
  | [x] => x
  | x :: y :: xs => x ++ sep ++ joinSep sep (y :: xs)

/-- Foreign-key reference data of a field (`field.references` in the
source): target table key, target column, optional on-delete action. -/
structure Refs where
  model : String
  field : String
  onDelete : Option String := none
deriving DecidableEq

/-- Shallow embedding of the better-auth `DBFieldAttribute` record,
restricted to the properties the generator actually reads. -/
structure DBFieldAttribute where
  type : String := "string"
  fieldName : Option String := none
  sortable : Bool := false
  bigint : Bool := false
  required : Option Bool := none
  unique : Bool := false
  index : Bool := false
  references : Option Refs := none
deriving DecidableEq

/-- Shallow embedding of one table of the better-auth DB schema. -/
structure TableDefinition where
  modelName : String
  order : Option Int := none
  disableMigrations : Bool := false
  fields : List (String × DBFieldAttribute) := []
deriving DecidableEq

/-- The full better-auth DB schema: table key to table definition, in key
insertion order (`BetterAuthDBSchema` in the source). -/
def Schema : Type := List (String × TableDefinition)

/-- Catalog snapshot: the existing table names (first query) and, per
table, the existing column names (second query), both in row order. -/
structure Catalog where
  existingTables : List String
  existingColumns : List (String × List String)
deriving DecidableEq

/-- Columns the catalog snapshot records for a table
(`existingColumns.get(modelName) ?? new Set()` in the source). -/
def colsOf (c : Catalog) (n : String) : List String :=
  (c.existingColumns.lookup n).getD []

/-- Source `camelToSnake`: `str.replace(/([A-Z])/g, '_$1').toLowerCase()` —
every ASCII-uppercase letter gets an underscore prefix, then the whole
string is lowercased. -/
def camelToSnake (s : String) : String :=
  String.mk (((s.data.flatMap fun c =>
    if c.isUpper then [underscoreChar, c] else [c])).map Char.toLower)

/-- Source `getColumnName`: `field.fieldName ?? camelToSnake(schemaKey)`. -/
def getColumnName (schemaKey : String) (field : DBFieldAttribute) : String :=
  field.fieldName.getD (camelToSnake schemaKey)

/-- Source `getKnexType`: maps the better-auth field type to the Lucid
schema-builder method name. -/
def getKnexType (field : DBFieldAttribute) : String :=
  if field.type == "string" then
    (if field.sortable then "string" else "text")
  else if field.type == "number" then
    (if field.bigint then "bigInteger" else "integer")
  else if field.type == "boolean" then "boolean"
  else if field.type == "date" then "timestamp"
  else if field.type == "json" then "jsonb"
  else "text"

/-- Source `ON_DELETE_MAP` as an association list. -/
def onDeleteMap : List (String × String) :=
  [("cascade", "CASCADE"), ("set null", "SET NULL"), ("restrict", "RESTRICT"),
   ("no action", "NO ACTION"), ("set default", "SET DEFAULT")]

/-- Resolution of the referenced table name in `buildColumnChain`:
`allTables[refs.model]?.modelName ?? refs.model`. -/
def refTableName (allTables : Schema) (m : String) : String :=
  match List.lookup m allTables with
  | some t => t.modelName
  | none => m

/-- Resolution of the on-delete action in `buildColumnChain`:
`ON_DELETE_MAP[refs.onDelete ?? 'cascade'] ?? 'CASCADE'`. -/
def onDeleteAction (od : Option String) : String :=
  (onDeleteMap.lookup (od.getD "cascade")).getD "CASCADE"

/-- The `'${colName}'` (or timestamp `'${colName}', { useTz: true }`)
argument of the base column call in `buildColumnChain`. -/
def chainTypeArg (colName knexType : String) : String :=
  if knexType == "timestamp" then
    "\x27" ++ colName ++ "\x27, \x7b useTz: true \x7d"
  else
    "\x27" ++ colName ++ "\x27"

/-- The `.primary()` segment appended by `buildColumnChain` for `id`. -/
def chainPrimary (schemaKey : String) : String :=
  if schemaKey == "id" then ".primary()" else ""

/-- The nullability segment of `buildColumnChain`
(`required !== false` means NOT NULL). -/
def chainNull (field : DBFieldAttribute) : String :=
  if field.required == some false then ".nullable()" else ".notNullable()"

/-- The `.unique()` segment of `buildColumnChain`. -/
def chainUnique (field : DBFieldAttribute) : String :=
  if field.unique then ".unique()" else ""

/-- The trailing segment of `buildColumnChain`: a references clause when a
foreign key is present, else `.index()` when the field is indexed, else
nothing (the source only adds `.index()` when there is no FK). -/
def chainTail (field : DBFieldAttribute) (allTables : Schema) : String :=
  match field.references with
  | some r =>
      ".references(\x27" ++ r.field ++ "\x27).inTable(\x27" ++
        refTableName allTables r.model ++ "\x27).onDelete(\x27" ++
        onDeleteAction r.onDelete ++ "\x27)"
  | none => if field.index then ".index()" else ""

/-- Everything of the column chain before the FK/index tail. -/
def chainBase (schemaKey : String) (field : DBFieldAttribute) : String :=
  getKnexType field ++ "(" ++
    chainTypeArg (getColumnName schemaKey field) (getKnexType field) ++ ")" ++
    chainPrimary schemaKey ++ chainNull field ++ chainUnique field

/-- Source `buildColumnChain`: the Lucid column chain for one field,
without the leading `table.`. -/
def buildColumnChain (schemaKey : String) (field : DBFieldAttribute)
    (allTables : Schema) : String :=
  chainBase schemaKey field ++ chainTail field allTables

/-- Source `generateCreateTableBlock`: `id` first (when present), then the
remaining fields in declaration order. -/
def generateCreateTableBlock (modelName : String)
    (fields : List (String × DBFieldAttribute)) (allTables : Schema)
    (indent : String) : String :=
  let idLines : List String :=
    match fields.lookup "id" with
    | some f => [indent ++ "  table." ++ buildColumnChain "id" f allTables]
    | none => []
  let restLines : List String :=
    (fields.filter fun kf => kf.1 != "id").map fun kf =>
      indent ++ "  table." ++ buildColumnChain kf.1 kf.2 allTables
  indent ++ "this.schema.createTable(\x27" ++ modelName ++
    "\x27, (table) => \x7b\n" ++ joinSep "\n" (idLines ++ restLines) ++
    "\n" ++ indent ++ "\x7d)"

/-- Source `wrapInBaseSchema`: the Lucid `BaseSchema` migration class
wrapping the up and down bodies. -/
def wrapInBaseSchema (upBody downBody : String) : String :=
  joinSep "\n"
    [ "import \x7b BaseSchema \x7d from \x27@adonisjs/lucid/schema\x27"
    , ""
    , "export default class extends BaseSchema \x7b"
    , "  async up() \x7b"
    , upBody
    , "  \x7d"
    , ""
    , "  async down() \x7b"
    , downBody
    , "  \x7d"
    , "\x7d"
    , "" ]

/-- Sort key of the single sort in `generateLucidMigration`:
`t.order ?? 999`. -/
def orderKey (t : TableDefinition) : Int := t.order.getD 999

/-- Comparator relation of the stable sort on tables. -/
def tableLE (a b : TableDefinition) : Prop := orderKey a ≤ orderKey b

instance : DecidableRel tableLE := fun a b =>
  inferInstanceAs (Decidable (orderKey a ≤ orderKey b))

instance : IsTotal TableDefinition tableLE := ⟨fun a b => Int.le_total _ _⟩

instance : IsTrans TableDefinition tableLE :=
  ⟨fun _ _ _ hab hbc => le_trans hab hbc⟩

/-- Step 1 of `generateLucidMigration`: drop `disableMigrations` tables and
stable-sort the rest by `order ?? 999` (JS `Array.sort` is stable). -/
def activeTables (tables : Schema) : List TableDefinition :=
  List.insertionSort tableLE
    ((tables.map Prod.snd).filter fun t => !t.disableMigrations)

/-- Mode selection of the generator: fresh iff the catalog has no `user`
table. -/
def isFresh (c : Catalog) : Bool := !(c.existingTables.contains "user")

/-- Fresh-mode up blocks: one creation block per active table, in sorted
order. -/
def freshUpBlocks (tables : Schema) : List String :=
  (activeTables tables).map fun t =>
    generateCreateTableBlock t.modelName t.fields tables "    "

/-- Drop statement used both by fresh-mode down lines and by the
incremental-mode rollback of a newly created table. -/
def dropTableStmt (t : TableDefinition) : String :=
  "    this.schema.dropTableIfExists(\x27" ++ t.modelName ++ "\x27)"

/-- Fresh-mode down lines: drops of the active tables in reversed order. -/
def freshDownLines (tables : Schema) : List String :=
  ((activeTables tables).reverse).map dropTableStmt

/-- Character class `\w` of the source regex, on ASCII. -/
def isWordChar (c : Char) : Bool := c.isAlphanum || c == underscoreChar

/-- Strip a literal pattern from the front of a char list. -/
def stripLit : List Char → List Char → Option (List Char)
  | [], s => some s
  | _ :: _, [] => none
  | c :: p, d :: s => if c == d then stripLit p s else none

/-- Attempt of the source regex `table\.\w+\(\x27([^\x27]+)\x27` at the
start of the char list, returning the capture.  The greedy `\w+` and
`[^\x27]+` never backtrack here because the literal characters that follow
them are outside the respective classes. -/
def matchAt (s : List Char) : Option (List Char) :=
  match stripLit ("table.").data s with
  | none => none
  | some r1 =>
    let w := r1.takeWhile isWordChar
    if w.isEmpty then none
    else
      match stripLit ['(', quoteChar] (r1.drop w.length) with
      | none => none
      | some r2 =>
        let cap := r2.takeWhile fun c => !(c == quoteChar)
        if cap.isEmpty then none
        else
          match stripLit [quoteChar] (r2.drop cap.length) with
          | none => none
          | some _ => some cap

/-- Leftmost match of the source regex, as `String.prototype.match` finds
it. -/
def searchMatch : List Char → Option (List Char)
  | [] => none
  | c :: rest =>
    match matchAt (c :: rest) with
    | some cap => some cap
    | none => searchMatch rest

/-- Column name captured from one added-column line, when the regex
matches. -/
def capturedName (line : String) : Option String :=
  (searchMatch line.data).map String.mk

/-- Shape of one rollback line for a freshly added column. -/
def mkDropColumnLine (n : String) : String :=
  "      table.dropColumn(\x27" ++ n ++ "\x27)"

/-- Source: `line.match(...)` produces `table.dropColumn(...)`; lines with
no match are filtered out. -/
def extractDropLine (line : String) : Option String :=
  (capturedName line).map mkDropColumnLine

/-- Whether an active table is absent from the catalog
(`!existingTables.has(modelName)`). -/
def tableIsNew (c : Catalog) (t : TableDefinition) : Bool :=
  !(c.existingTables.contains t.modelName)

/-- Fields of an existing table whose resolved column name is missing from
the catalog; the `id` key is skipped by the loop. -/
def addColEntries (c : Catalog) (t : TableDefinition) :
    List (String × DBFieldAttribute) :=
  t.fields.filter fun kf =>
    kf.1 != "id" &&
      !((colsOf c t.modelName).contains (getColumnName kf.1 kf.2))

/-- The `addColLines` array of the incremental loop. -/
def addColLines (c : Catalog) (tables : Schema) (t : TableDefinition) :
    List String :=
  (addColEntries c t).map fun kf =>
    "      table." ++ buildColumnChain kf.1 kf.2 tables

/-- The `dropLines` array of the incremental loop: regex extraction over
the added lines. -/
def dropLines (c : Catalog) (tables : Schema) (t : TableDefinition) :
    List String :=
  (addColLines c tables t).filterMap extractDropLine

/-- The single batched `this.schema.table(...)` alteration statement. -/
def alterUpStmt (c : Catalog) (tables : Schema) (t : TableDefinition) :
    String :=
  "    this.schema.table(\x27" ++ t.modelName ++ "\x27, (table) => \x7b\n" ++
    joinSep "\n" (addColLines c tables t) ++ "\n    \x7d)"

/-- The rollback alteration dropping the freshly added columns. -/
def alterDownStmt (c : Catalog) (tables : Schema) (t : TableDefinition) :
    String :=
  "    this.schema.table(\x27" ++ t.modelName ++ "\x27, (table) => \x7b\n" ++
    joinSep "\n" (dropLines c tables t) ++ "\n    \x7d)"

/-- Up statements contributed by one active table in the incremental loop:
a creation block for a new table, one batched alteration for an existing
table with missing columns, nothing otherwise. -/
def upStmtsFor (c : Catalog) (tables : Schema) (t : TableDefinition) :
    List String :=
  if tableIsNew c t then
    [generateCreateTableBlock t.modelName t.fields tables "    "]
  else if !(addColLines c tables t).isEmpty then [alterUpStmt c tables t]
  else []

/-- Down statement a new table contributes (it is `unshift`ed). -/
def createDropFor (c : Catalog) (t : TableDefinition) : Option String :=
  if tableIsNew c t then some (dropTableStmt t) else none

/-- Down statement an altered existing table contributes (it is pushed);
the source guards on both `addColLines` and `dropLines` being nonempty. -/
def alterDropFor (c : Catalog) (tables : Schema) (t : TableDefinition) :
    Option String :=
  if !tableIsNew c t && !(addColLines c tables t).isEmpty &&
      !(dropLines c tables t).isEmpty
  then some (alterDownStmt c tables t) else none

/-- First line of the warning block for a stray catalog column; it names
both the table and the column. -/
def colWarnHead (m col : String) : String :=
  "    // WARNING: \x27" ++ m ++ "." ++ col ++
    "\x27 is no longer in your better-auth config."

/-- Warning lines pushed for one catalog column that no declared field
resolves to. -/
def colWarnBody (m col : String) : List String :=
  [ colWarnHead m col
  , "    // Remove it manually if desired:"
  , "    // this.schema.table(\x27" ++ m ++
      "\x27, (table) => \x7b table.dropColumn(\x27" ++ col ++ "\x27) \x7d)" ]

/-- Whether some declared field (including `id`) resolves to the catalog
column, as the `stillDesired` check of the source. -/
def stillDesired (t : TableDefinition) (col : String) : Bool :=
  t.fields.any fun kf => getColumnName kf.1 kf.2 == col

/-- Column warnings contributed by one active table; a new table was
`continue`d past before this loop. -/
def colWarnsFor (c : Catalog) (t : TableDefinition) : List String :=
  if tableIsNew c t then []
  else
    (colsOf c t.modelName).flatMap fun col =>
      if col == "id" then []
      else if stillDesired t col then []
      else colWarnBody t.modelName col

/-- The `desiredTableNames` set of the source. -/
def desiredTableNames (tables : Schema) : List String :=
  (activeTables tables).map TableDefinition.modelName

/-- The `wasOurs` check of the source: some active table carries this
model name. -/
def wasOurs (tables : Schema) (n : String) : Bool :=
  (activeTables tables).any fun t => t.modelName == n

/-- Warning lines for a catalog table that left the configuration. -/
def tableWarnBody (n : String) : List String :=
  [ "    // WARNING: Table \x27" ++ n ++
      "\x27 exists in DB but is no longer in your config."
  , "    // Drop it manually if desired:"
  , "    // this.schema.dropTableIfExists(\x27" ++ n ++ "\x27)" ]

/-- Table-level warnings: for every existing table outside the desired
set that `wasOurs` accepts. -/
def tableWarns (c : Catalog) (tables : Schema) : List String :=
  c.existingTables.flatMap fun et =>
    if !(desiredTableNames tables).contains et && wasOurs tables et
    then tableWarnBody et else []

/-- The `upStatements` array after the incremental loop. -/
def incrUpStatements (c : Catalog) (tables : Schema) : List String :=
  (activeTables tables).flatMap (upStmtsFor c tables)

/-- One iteration's effect on the `downStatements` array: a new table's
drop is `unshift`ed (prepended), an alteration's rollback is pushed
(appended). -/
def stepDown (c : Catalog) (tables : Schema) (acc : List String)
    (t : TableDefinition) : List String :=
  match createDropFor c t with
  | some d => d :: acc
  | none =>
    match alterDropFor c tables t with
    | some d => acc ++ [d]
    | none => acc

/-- The `downStatements` array after the incremental loop. -/
def incrDownStatements (c : Catalog) (tables : Schema) : List String :=
  (activeTables tables).foldl (stepDown c tables) []

/-- The `warnings` array after both warning passes: per-table column
warnings in loop order, then the table-level warnings. -/
def incrWarnings (c : Catalog) (tables : Schema) : List String :=
  (activeTables tables).flatMap (colWarnsFor c) ++ tableWarns c tables

/-- Code of the no-op artifact returned when the incremental diff is
empty. -/
def noopCode : String :=
  "// better-auth schema is already in sync with your database. No changes needed.\n"

/-- The incremental up body: all statements, then a blank-separated
warning block when warnings exist. -/
def incrUpBody (c : Catalog) (tables : Schema) : String :=
  joinSep "\n\n" (incrUpStatements c tables ++
    (if (incrWarnings c tables).isEmpty then []
     else "" :: incrWarnings c tables))

/-- The incremental down body, or the manual-rollback comment when no
inverse statements were collected. -/
def incrDownBody (c : Catalog) (tables : Schema) : String :=
  if (incrDownStatements c tables).isEmpty then
    "    // No automatic rollback for incremental changes — run manually if needed."
  else joinSep "\n\n" (incrDownStatements c tables)

/-- Result record of `generateLucidMigration`. -/
structure MigrationArtifact where
  code : String
  path : String
  overwrite : Bool
deriving DecidableEq

/-- Default output path, built from the timestamp of the current clock
reading. -/
def defaultPath (timestamp : String) : String :=
  "database/migrations/" ++ timestamp ++ "_better_auth_schema.ts"

/-- Source `generateLucidMigration`, as a pure function of the catalog
snapshot, the schema, the optional file override and the clock-derived
timestamp string. -/
def generateLucidMigration (c : Catalog) (tables : Schema)
    (file : Option String) (timestamp : String) : MigrationArtifact :=
  let outputPath := file.getD (defaultPath timestamp)
  if isFresh c then
    { code := wrapInBaseSchema (joinSep "\n\n" (freshUpBlocks tables))
        (joinSep "\n" (freshDownLines tables))
      path := outputPath
      overwrite := false }
  else if (incrUpStatements c tables).isEmpty &&
      (incrWarnings c tables).isEmpty then
    { code := noopCode, path := outputPath, overwrite := false }
  else
    { code := wrapInBaseSchema (incrUpBody c tables) (incrDownBody c tables)
      path := outputPath
      overwrite := false }

/-- Modelled from the spec, for the refinement claim about rollback order:
the structural inverse of the up statement each active table contributes,
collected in up order.  A new table's inverse is its drop; an altered
table's inverse is its column-drop alteration. -/
def specUndoListInUpOrder (c : Catalog) (tables : Schema) : List String :=
  (activeTables tables).flatMap fun t =>
    (createDropFor c t).toList ++ (alterDropFor c tables t).toList

/-- Drops of newly created tables, in up order. -/
def incrCreateDrops (c : Catalog) (tables : Schema) : List String :=
  (activeTables tables).filterMap (createDropFor c)

/-- Column-drop alterations, in up order. -/
def incrAlterDrops (c : Catalog) (tables : Schema) : List String :=
  (activeTables tables).filterMap (alterDropFor c tables)

/-- Boolean prefix test used to decide substring occurrence. -/
def isPrefB : List Char → List Char → Bool
  | [], _ => true
  | _ :: _, [] => false
  | a :: as, b :: bs => a == b && isPrefB as bs

/-- Boolean substring test. -/
def occursInB (p : List Char) : List Char → Bool
  | [] => p.isEmpty
  | c :: rest => isPrefB p (c :: rest) || occursInB p rest

/-- Proposition that `p` occurs contiguously inside `l`, via the boolean
search (so that it is decidable by computation); `occursIn_iff` below
certifies the meaning. -/
def occursIn (p l : List Char) : Prop := occursInB p l = true

instance (p l : List Char) : Decidable (occursIn p l) :=
  inferInstanceAs (Decidable (occursInB p l = true))

/-- Ending of a char list in a given pattern. -/
def endsIn (p l : List Char) : Prop := ∃ a, l = a ++ p

/-- Well-formedness of a resolved column name used by the regex-extraction
lemmas: nonempty and free of the quote character, as every real SQL
identifier is. -/
def goodName (s : String) : Prop := s.data ≠ [] ∧ quoteChar ∉ s.data

instance (s : String) : Decidable (goodName s) :=
  inferInstanceAs (Decidable (_ ∧ _))

/-- Modelled from the spec's words for C8: each (ASCII) uppercase letter
becomes an underscore followed by its lowercase form, any other character
is kept (lowercased, a no-op on the keys the spec speaks about). -/
def specSnakeCase (s : String) : String :=
  String.mk (s.data.flatMap fun c =>
    if c.isUpper then [underscoreChar, c.toLower] else [c.toLower])

/-- Modelled from the spec's words for C1: the down sequence is the
structural inverse of the up sequence in exactly reverse order. -/
def DownIsReversedUndo (c : Catalog) (tables : Schema) : Prop :=
  incrDownStatements c tables = (specUndoListInUpOrder c tables).reverse

/-- Boolean form of `goodName`, for hypotheses stated as computations. -/
def goodNameB (s : String) : Bool :=
  !s.data.isEmpty && !(s.data.contains quoteChar)

instance (c : Catalog) (tables : Schema) :
    Decidable (DownIsReversedUndo c tables) :=
  inferInstanceAs (Decidable (_ = _))

/-- Catalog of a fresh database: no tables at all. -/
def emptyCatalog : Catalog := { existingTables := [], existingColumns := [] }

/-- Example `user` table carrying one extra text field. -/
def exC1User : TableDefinition :=
  { modelName := "user", order := some 1
    fields := [("id", {}), ("name", {})] }

/-- Example `session` table carrying one extra text field. -/
def exC1Session : TableDefinition :=
  { modelName := "session", order := some 2
    fields := [("id", {}), ("token", {})] }

/-- Schema of the two example tables above. -/
def exC1Schema : Schema := [("user", exC1User), ("session", exC1Session)]

/-- Catalog where both example tables exist but each misses one column. -/
def exC1Catalog : Catalog :=
  { existingTables := ["user", "session"]
    existingColumns := [("user", ["id"]), ("session", ["id"])] }

/-- Example table excluded from migrations. -/
def exC2Disabled : TableDefinition :=
  { modelName := "jwks", order := some 5, disableMigrations := true
    fields := [("id", {})] }

/-- Example active table with a foreign key into the disabled table. -/
def exC2Session : TableDefinition :=
  { modelName := "session", order := some 1
    fields := [("id", {}),
      ("userId", { references := some { model := "jwks", field := "id" } })] }

/-- Schema pairing the disabled table with the referencing table. -/
def exC2Schema : Schema := [("jwks", exC2Disabled), ("session", exC2Session)]

/-- Example schema that only keeps the `user` table. -/
def exC3Schema : Schema :=
  [("user", { modelName := "user", order := some 1, fields := [("id", {})] })]

/-- Catalog holding a leftover `session` table that left the schema. -/
def exC3Catalog : Catalog :=
  { existingTables := ["user", "session"]
    existingColumns := [("user", ["id"])] }

/-- Schema with a deliberate `order` tie between `beta` and `gamma`. -/
def exC4Schema : Schema :=
  [("a", { modelName := "alpha", order := some 2, fields := [("id", {})] }),
   ("b", { modelName := "beta", order := some 1, fields := [("id", {})] }),
   ("c", { modelName := "gamma", order := some 1, fields := [("id", {})] })]

/-- Example provisioned table about to receive one new boolean column. -/
def exC5User : TableDefinition :=
  { modelName := "user", order := some 1
    fields := [("id", {}), ("twoFactorEnabled", { type := "boolean" })] }

/-- Schema of the single provisioned example table. -/
def exC5Schema : Schema := [("user", exC5User)]

/-- Catalog where the provisioned example table misses the new column. -/
def exC5Catalog : Catalog :=
  { existingTables := ["user"], existingColumns := [("user", ["id"])] }

/-- Example table fully described by `id` and `email`. -/
def exC6User : TableDefinition :=
  { modelName := "user", order := some 1
    fields := [("id", {}), ("email", {})] }

/-- Schema of the synchronised example table. -/
def exC6Schema : Schema := [("user", exC6User)]

/-- Catalog exactly matching `exC6Schema`. -/
def exC6SyncCatalog : Catalog :=
  { existingTables := ["user"], existingColumns := [("user", ["id", "email"])] }

/-- Schema mapping the key `user` to the canonical name `app_users`. -/
def exC7Tables : Schema :=
  [("user", { modelName := "app_users", order := some 1 })]

/-- Foreign key with no explicit on-delete action. -/
def exC7FK : Refs := { model := "user", field := "id" }

/-- Field that is both indexed and a foreign key. -/
def exC7Field : DBFieldAttribute :=
  { index := true, references := some exC7FK }

/-- Field that is indexed and has no foreign key. -/
def exC7Plain : DBFieldAttribute := { index := true }

/-- Example provisioned table whose catalog holds a stray column. -/
def exC9User : TableDefinition :=
  { modelName := "user", order := some 1
    fields := [("id", {}), ("email", {})] }

/-- Schema of the stray-column example. -/
def exC9Schema : Schema := [("user", exC9User)]

/-- Catalog with the stray `legacy_col` and without the declared `email`. -/
def exC9Catalog : Catalog :=
  { existingTables := ["user"]
    existingColumns := [("user", ["id", "legacy_col"])] }

/-- Schema whose single table is excluded from migrations. -/
def exC10Schema : Schema :=
  [("user", { modelName := "user", disableMigrations := true
              fields := [("id", {})] })]

theorem isPrefB_iff (p : List Char) :
    ∀ l, isPrefB p l = true ↔ ∃ t, l = p ++ t := by
  induction p with
  | nil => intro l; simp [isPrefB]
  | cons a as ih =>
    intro l
    cases l with
    | nil => simp [isPrefB]
    | cons b bs =>
      simp only [isPrefB, Bool.and_eq_true, beq_iff_eq, ih bs]
      constructor
      · rintro ⟨rfl, t, rfl⟩; exact ⟨t, rfl⟩
      · rintro ⟨t, ht⟩
        injection ht with h1 h2
        exact ⟨h1.symm, t, h2⟩

theorem occursIn_iff (p : List Char) :
    ∀ l, occursIn p l ↔ ∃ x y, l = x ++ p ++ y := by
  intro l
  unfold occursIn
  induction l with
  | nil =>
    simp only [occursInB, List.isEmpty_iff]
    constructor
    · rintro rfl; exact ⟨[], [], rfl⟩
    · rintro ⟨x, y, h⟩
      rcases List.append_eq_nil.mp h.symm with ⟨h1, h2⟩
      rcases List.append_eq_nil.mp h1 with ⟨-, h3⟩
      exact h3
  | cons c rest ih =>
    unfold occursIn at ih
    simp only [occursInB, Bool.or_eq_true, isPrefB_iff, ih]
    constructor
    · rintro (⟨t, ht⟩ | ⟨x, y, h⟩)
      · exact ⟨[], t, by simp [ht]⟩
      · exact ⟨c :: x, y, by simp [h]⟩
    · rintro ⟨x, y, h⟩
      cases x with
      | nil => exact Or.inl ⟨y, by simpa using h⟩
      | cons x0 xs =>
        injection h with h1 h2
        exact Or.inr ⟨xs, y, h2⟩

theorem occursIn_append_left {p x : List Char} (y : List Char)
    (h : occursIn p x) : occursIn p (x ++ y) := by
  rw [occursIn_iff] at h
  rw [occursIn_iff]
  rcases h with ⟨a, b, rfl⟩
  exact ⟨a, b ++ y, by simp⟩

theorem occursIn_append_right {p y : List Char} (x : List Char)
    (h : occursIn p y) : occursIn p (x ++ y) := by
  rw [occursIn_iff] at h ⊢
  rcases h with ⟨a, b, rfl⟩
  exact ⟨x ++ a, b, by simp⟩

theorem occursIn_trans {p q w : List Char} (h1 : occursIn p q)
    (h2 : occursIn q w) : occursIn p w := by
  rw [occursIn_iff] at h1 h2 ⊢
  rcases h1 with ⟨a, b, rfl⟩
  rcases h2 with ⟨x, y, rfl⟩
  exact ⟨x ++ a, b ++ y, by simp⟩

theorem occursIn_joinSep (sep : String) (s : String) :
    ∀ l : List String, s ∈ l → occursIn s.data (joinSep sep l).data := by
  intro l
  induction l with
  | nil => intro h; cases h
  | cons x xs ih =>
    intro hs
    rw [occursIn_iff]
    cases xs with
    | nil =>
      rcases List.mem_singleton.mp hs with rfl
      exact ⟨[], [], by simp [joinSep]⟩
    | cons y ys =>
      rcases List.mem_cons.mp hs with rfl | hmem
      · exact ⟨[], (sep ++ joinSep sep (y :: ys)).data,
          by simp [joinSep, String.data_append]⟩
      · rcases (occursIn_iff s.data _).mp (ih hmem) with ⟨a, b, hab⟩
        exact ⟨(x ++ sep).data ++ a, b,
          by simp [joinSep, String.data_append, hab]⟩

theorem alterDropFor_eq_none {c : Catalog} {tables : Schema}
    {t : TableDefinition} {d : String} (h : createDropFor c t = some d) :
    alterDropFor c tables t = none := by
  unfold createDropFor at h
  by_cases hn : tableIsNew c t
  · simp [alterDropFor, hn]
  · simp [hn] at h

theorem foldl_stepDown (c : Catalog) (tables : Schema) :
    ∀ (l : List TableDefinition) (acc : List String),
      l.foldl (stepDown c tables) acc =
        (l.filterMap (createDropFor c)).reverse ++ acc ++
          l.filterMap (alterDropFor c tables) := by
  intro l
  induction l with
  | nil => intro acc; simp
  | cons t l ih =>
    intro acc
    rw [List.foldl_cons, ih]
    cases h : createDropFor c t with
    | some d =>
      have hnone : alterDropFor c tables t = none := alterDropFor_eq_none h
      simp [stepDown, h, hnone, List.filterMap_cons]
    | none =>
      cases h2 : alterDropFor c tables t with
      | some d => simp [stepDown, h, h2, List.filterMap_cons]
      | none => simp [stepDown, h, h2, List.filterMap_cons]

theorem incrDownStatements_eq (c : Catalog) (tables : Schema) :
    incrDownStatements c tables =
      (incrCreateDrops c tables).reverse ++ incrAlterDrops c tables := by
  unfold incrDownStatements incrCreateDrops incrAlterDrops
  simpa using foldl_stepDown c tables (activeTables tables) []

theorem stripLit_self_append : ∀ (p s : List Char), stripLit p (p ++ s) = some s := by
  intro p
  induction p with
  | nil => intro s; rfl
  | cons c p ih => intro s; simp [stripLit, ih]

theorem takeWhile_append_stop {p : Char → Bool} :
    ∀ (m : List Char) (y : Char) (z : List Char),
      (∀ x ∈ m, p x = true) → p y = false →
      List.takeWhile p (m ++ y :: z) = m := by
  intro m
  induction m with
  | nil =>
    intro y z _ hy
    simp [List.takeWhile_cons, hy]
  | cons a m ih =>
    intro y z hm hy
    have ha : p a = true := hm a (by simp)
    simp [List.takeWhile_cons, ha,
      ih y z (fun x hx => hm x (by simp [hx])) hy]

theorem getKnexType_wordlike (f : DBFieldAttribute) :
    (getKnexType f).data ≠ [] ∧
      ∀ ch ∈ (getKnexType f).data, isWordChar ch = true := by
  unfold getKnexType
  split_ifs <;> exact ⟨by decide, by decide⟩

theorem matchAt_shape {S kt n tail : List Char}
    (hS : S = ("table.").data ++
      (kt ++ '(' :: quoteChar :: (n ++ quoteChar :: tail)))
    (hkt1 : kt ≠ []) (hkt2 : ∀ ch ∈ kt, isWordChar ch = true)
    (hn1 : n ≠ []) (hn2 : quoteChar ∉ n) :
    matchAt S = some n := by
  subst hS
  have hkE : kt.isEmpty = false := List.isEmpty_eq_false.mpr hkt1
  have hnE : n.isEmpty = false := List.isEmpty_eq_false.mpr hn1
  have hw : List.takeWhile isWordChar
      (kt ++ '(' :: quoteChar :: (n ++ quoteChar :: tail)) = kt :=
    takeWhile_append_stop kt _ _ hkt2 (by decide)
  have hcap : List.takeWhile (fun c => !(c == quoteChar))
      (n ++ quoteChar :: tail) = n := by
    refine takeWhile_append_stop n _ _ ?_ (by simp)
    intro x hx
    have hne : (x == quoteChar) = false :=
      beq_eq_false_iff_ne.mpr (fun h => hn2 (h ▸ hx))
    simp [hne]
  unfold matchAt
  rw [stripLit_self_append]
  simp [hw, hkE, hcap, hnE, stripLit, List.drop_left]

theorem matchAt_space (X : List Char) : matchAt (' ' :: X) = none := by
  unfold matchAt
  have h : stripLit ("table.").data (' ' :: X) = none := by
    rw [show ("table." : String).data = 't' :: ("able." : String).data from rfl]
    simp only [stripLit]
    rw [if_neg (by decide)]
  rw [h]

theorem searchMatch_cons_space (X : List Char) :
    searchMatch (' ' :: X) = searchMatch X := by
  show (match matchAt (' ' :: X) with
    | some cap => some cap
    | none => searchMatch X) = searchMatch X
  rw [matchAt_space]

theorem searchMatch_pos {l cap : List Char} (h : matchAt l = some cap)
    (hne : l ≠ []) : searchMatch l = some cap := by
  cases l with
  | nil => cases hne rfl
  | cons c rest =>
    unfold searchMatch
    rw [h]

theorem buildColumnChain_data_shape (k : String) (f : DBFieldAttribute)
    (tables : Schema) :
    ∃ tail, (buildColumnChain k f tables).data =
      (getKnexType f).data ++ '(' :: quoteChar ::
        ((getColumnName k f).data ++ quoteChar :: tail) := by
  unfold buildColumnChain chainBase chainTypeArg
  by_cases h : (getKnexType f == "timestamp") = true
  · rw [if_pos h]
    refine ⟨((", \x7b useTz: true \x7d" : String) ++ ")" ++ chainPrimary k ++
      chainNull f ++ chainUnique f ++ chainTail f tables).data, ?_⟩
    simp [String.data_append, List.append_assoc,
      show ("\x27" : String).data = [quoteChar] from by decide,
      show ("\x27, \x7b useTz: true \x7d" : String).data =
        quoteChar :: (", \x7b useTz: true \x7d" : String).data from by decide,
      show ("(" : String).data = ['('] from rfl]
    decide
  · rw [if_neg h]
    refine ⟨((")" : String) ++ chainPrimary k ++ chainNull f ++
      chainUnique f ++ chainTail f tables).data, ?_⟩
    simp [String.data_append, List.append_assoc,
      show ("\x27" : String).data = [quoteChar] from by decide,
      show ("(" : String).data = ['('] from rfl]
    decide

theorem capturedName_addLine (k : String) (f : DBFieldAttribute)
    (tables : Schema) (hn1 : (getColumnName k f).data ≠ [])
    (hn2 : quoteChar ∉ (getColumnName k f).data) :
    capturedName ("      table." ++ buildColumnChain k f tables) =
      some (getColumnName k f) := by
  obtain ⟨tail, htail⟩ := buildColumnChain_data_shape k f tables
  obtain ⟨hkt1, hkt2⟩ := getKnexType_wordlike f
  unfold capturedName
  have hdata : ("      table." ++ buildColumnChain k f tables).data =
      ' ' :: ' ' :: ' ' :: ' ' :: ' ' :: ' ' ::
        (("table." : String).data ++ (buildColumnChain k f tables).data) := by
    rw [String.data_append]
    rw [show ("      table." : String).data =
      ' ' :: ' ' :: ' ' :: ' ' :: ' ' :: ' ' :: ("table." : String).data
      from rfl]
    simp
  rw [hdata, searchMatch_cons_space, searchMatch_cons_space,
    searchMatch_cons_space, searchMatch_cons_space, searchMatch_cons_space,
    searchMatch_cons_space,
    searchMatch_pos (matchAt_shape (by rw [htail]) hkt1 hkt2 hn1 hn2)
      (by simp)]
  rfl

theorem extractDropLine_addLine (k : String) (f : DBFieldAttribute)
    (tables : Schema) (h : goodName (getColumnName k f)) :
    extractDropLine ("      table." ++ buildColumnChain k f tables) =
      some (mkDropColumnLine (getColumnName k f)) := by
  unfold extractDropLine
  rw [capturedName_addLine k f tables h.1 h.2]
  rfl

theorem dropLines_eq (c : Catalog) (tables : Schema) (t : TableDefinition)
    (hclean : ∀ kf ∈ t.fields, goodName (getColumnName kf.1 kf.2)) :
    dropLines c tables t =
      (addColEntries c t).map fun kf =>
        mkDropColumnLine (getColumnName kf.1 kf.2) := by
  unfold dropLines addColLines
  have hsub : ∀ kf ∈ addColEntries c t, goodName (getColumnName kf.1 kf.2) :=
    fun kf hkf => hclean kf (List.mem_filter.mp hkf).1
  revert hsub
  generalize addColEntries c t = L
  intro hsub
  induction L with
  | nil => rfl
  | cons kf L ih =>
    rw [List.map_cons, List.filterMap_cons, List.map_cons,
      extractDropLine_addLine kf.1 kf.2 tables (hsub kf (by simp))]
    rw [ih fun x hx => hsub x (by simp [hx])]

theorem filter_key_orderedInsert (a : TableDefinition) (k : Int) :
    ∀ l : List TableDefinition,
      (List.orderedInsert tableLE a l).filter (fun t => orderKey t == k) =
        if orderKey a == k then
          a :: l.filter (fun t => orderKey t == k)
        else l.filter (fun t => orderKey t == k) := by
  intro l
  induction l with
  | nil =>
    rw [List.orderedInsert_nil, List.filter_cons]
  | cons b l ih =>
    by_cases hab : tableLE a b
    · rw [List.orderedInsert_of_le tableLE l hab]
      by_cases hk : (orderKey a == k) = true
      · simp [List.filter_cons, hk]
      · simp [List.filter_cons, Bool.eq_false_iff.mpr hk]
    · have hoi : List.orderedInsert tableLE a (b :: l) =
          b :: List.orderedInsert tableLE a l := by
        simp [List.orderedInsert, hab]
      rw [hoi, List.filter_cons, ih]
      by_cases hk : (orderKey a == k) = true
      · have hka : orderKey a = k := by simpa using hk
        have hnle : ¬ orderKey a ≤ orderKey b := hab
        have hbk : (orderKey b == k) = false :=
          beq_eq_false_iff_ne.mpr (by omega)
        simp [hk, hbk, List.filter_cons]
      · have hk' : (orderKey a == k) = false := Bool.eq_false_iff.mpr hk
        simp [hk', List.filter_cons]

theorem filter_key_insertionSort (k : Int) :
    ∀ l : List TableDefinition,
      (List.insertionSort tableLE l).filter (fun t => orderKey t == k) =
        l.filter (fun t => orderKey t == k) := by
  intro l
  induction l with
  | nil => rfl
  | cons a l ih =>
    show (List.orderedInsert tableLE a
      (List.insertionSort tableLE l)).filter _ = _
    rw [filter_key_orderedInsert, ih]
    by_cases hk : (orderKey a == k) = true
    · simp [List.filter_cons, hk]
    · simp [List.filter_cons, Bool.eq_false_iff.mpr hk]

theorem wrapInBaseSchema_ne_noop (u d : String) :
    wrapInBaseSchema u d ≠ noopCode := by
  intro h
  have h' : (wrapInBaseSchema u d).data = noopCode.data :=
    congrArg String.data h
  rw [wrapInBaseSchema] at h'
  simp only [joinSep, String.data_append] at h'
  rw [show noopCode.data = '/' ::
      ("/ better-auth schema is already in sync with your database. No changes needed.\n" :
        String).data from by decide] at h'
  simp only [List.cons_append, List.append_assoc, List.nil_append] at h'
  injection h' with h1 h2
  exact absurd h1 (by decide)

theorem generateLucidMigration_fresh (c : Catalog) (tables : Schema)
    (file : Option String) (ts : String) (hf : isFresh c = true) :
    generateLucidMigration c tables file ts =
      { code := wrapInBaseSchema (joinSep "\n\n" (freshUpBlocks tables))
          (joinSep "\n" (freshDownLines tables))
        path := file.getD (defaultPath ts)
        overwrite := false } := by
  unfold generateLucidMigration
  simp [hf]

theorem generateLucidMigration_incr (c : Catalog) (tables : Schema)
    (file : Option String) (ts : String) (hf : isFresh c = false)
    (h : incrUpStatements c tables ≠ [] ∨ incrWarnings c tables ≠ []) :
    generateLucidMigration c tables file ts =
      { code := wrapInBaseSchema (incrUpBody c tables) (incrDownBody c tables)
        path := file.getD (defaultPath ts)
        overwrite := false } := by
  have hcond : ((incrUpStatements c tables).isEmpty &&
      (incrWarnings c tables).isEmpty) = false := by
    rcases h with h | h
    · simp [List.isEmpty_eq_false.mpr h]
    · simp [List.isEmpty_eq_false.mpr h]
  unfold generateLucidMigration
  simp [hf, hcond]

theorem generateLucidMigration_noop (c : Catalog) (tables : Schema)
    (file : Option String) (ts : String) (hf : isFresh c = false)
    (h1 : incrUpStatements c tables = []) (h2 : incrWarnings c tables = []) :
    generateLucidMigration c tables file ts =
      { code := noopCode, path := file.getD (defaultPath ts)
        overwrite := false } := by
  unfold generateLucidMigration
  simp [hf, h1, h2]

theorem warnCond_false (tables : Schema) (et : String) :
    (!(desiredTableNames tables).contains et && wasOurs tables et) = false := by
  by_cases h : wasOurs tables et = true
  · have hc : (desiredTableNames tables).contains et = true := by
      unfold wasOurs at h
      rcases List.any_eq_true.mp h with ⟨t, ht, heq⟩
      have hmn : t.modelName = et := by simpa using heq
      refine List.contains_iff_exists_mem_beq.mpr ⟨et, ?_, by simp⟩
      unfold desiredTableNames
      exact List.mem_map.mpr ⟨t, ht, hmn⟩
    rw [hc]
    rfl
  · have h' : wasOurs tables et = false := Bool.eq_false_iff.mpr h
    simp [h']

theorem tableWarns_eq_nil (c : Catalog) (tables : Schema) :
    tableWarns c tables = [] := by
  unfold tableWarns
  induction c.existingTables with
  | nil => rfl
  | cons et L ih =>
    rw [List.flatMap_cons, warnCond_false, ih]
    simp


theorem camelToSnake_eq_spec (s : String) : camelToSnake s = specSnakeCase s := by
  unfold camelToSnake specSnakeCase
  congr 1
  induction s.data with
  | nil => rfl
  | cons c l ih =>
    rw [List.flatMap_cons, List.flatMap_cons, List.map_append, ih]
    congr 1
    by_cases h : c.isUpper
    · simp [h, show underscoreChar.toLower = underscoreChar from by decide]
    · simp [h]

/-- Claim C8 (confirmed): the resolved column name is the `fieldName`
override when present and otherwise the camel-to-snake conversion of the
key, which replaces every (ASCII) uppercase letter by an underscore plus
its lowercase form; `userId` and `twoFactorEnabled` map exactly as the
spec says.  The resolution is a pure Lean function of key and field. -/
theorem C8_column_name_resolution (k : String) (f : DBFieldAttribute) :
    (getColumnName k f = match f.fieldName with
      | some s => s
      | none => specSnakeCase k)
    ∧ camelToSnake "userId" = "user_id"
    ∧ camelToSnake "twoFactorEnabled" = "two_factor_enabled" := by
  refine ⟨?_, by decide, by decide⟩
  cases h : f.fieldName with
  | some s => simp [getColumnName, h]
  | none => simp [getColumnName, h, camelToSnake_eq_spec]

/-- Claim C3 (code bug): the table-level warning for removed tables is
unreachable.  `wasOurs` accepts exactly the names of active tables, and
those same names form the desired set, so the removed-table condition
contradicts itself and the table-warning list is empty on every input; at
the failing input (a catalog still holding a previously managed `session`
table that left the schema) the run even returns the no-op artifact. -/
theorem C3_removed_table_warning_unreachable (c : Catalog) (tables : Schema) :
    tableWarns c tables = []
    ∧ incrWarnings c tables = (activeTables tables).flatMap (colWarnsFor c)
    ∧ (generateLucidMigration exC3Catalog exC3Schema none
        "20250101000000").code = noopCode := by
  refine ⟨tableWarns_eq_nil c tables, ?_, by decide⟩
  unfold incrWarnings
  rw [tableWarns_eq_nil]
  simp

set_option maxRecDepth 4000 in
/-- Claim C2 (counterexample): with the `jwks` table disabled and an active
`session` table whose `userId` field references it, the fresh-mode output
does contain the string `jwks` — inside the generated references clause —
so the disabled table's name occurs in the generated migration text. -/
theorem C2_counterexample :
    occursIn ("jwks" : String).data
      (generateLucidMigration emptyCatalog exC2Schema none
        "20250101000000").code.data := by decide

/-- Claim C2 (amended): generation itself excludes disabled tables — the
processed table list is a permutation of the non-disabled tables and every
processed table is non-disabled, so no statement or warning is ever
generated for a disabled table — but the disabled table's name may still
appear inside an active table's foreign-key references clause, as the
counterexample shows. -/
theorem C2_amended_disabled_tables_not_processed (tables : Schema) :
    ((activeTables tables).all fun t => !t.disableMigrations) = true
    ∧ List.Perm (activeTables tables)
        ((tables.map Prod.snd).filter fun t => !t.disableMigrations) := by
  constructor
  · rw [List.all_eq_true]
    intro t ht
    have hp : List.Perm (activeTables tables)
        ((tables.map Prod.snd).filter fun t => !t.disableMigrations) :=
      List.perm_insertionSort tableLE _
    exact (List.mem_filter.mp (hp.mem_iff.mp ht)).2
  · exact List.perm_insertionSort tableLE _

/-- Claim C1 (counterexample): in provisioned mode, with two existing
tables each missing one column, the down sequence keeps the two
column-drop alterations in forward order — the statement undoing the last
up statement comes last, not first. -/
theorem C1_counterexample :
    ¬ DownIsReversedUndo exC1Catalog exC1Schema := by decide

/-- Claim C1 (amended): fresh-mode down is exactly the reversed drop list;
provisioned-mode down is the reversed list of new-table drops followed by
the column-drop alterations in forward (up) order — new-table drops are
prepended while alteration rollbacks are appended. -/
theorem C1_amended_down_order (c : Catalog) (tables : Schema) :
    freshDownLines tables = ((activeTables tables).map dropTableStmt).reverse
    ∧ incrDownStatements c tables =
        (incrCreateDrops c tables).reverse ++ incrAlterDrops c tables := by
  refine ⟨?_, incrDownStatements_eq c tables⟩
  unfold freshDownLines
  rw [List.map_reverse]

/-- Claim C10 (confirmed): whenever the catalog lacks the `user` table the
generator returns the full wrapped document — never the no-op comment,
whose first character already differs — and with an empty active table set
the wrapped up and down bodies are empty strings. -/
theorem C10_fresh_never_noop (c : Catalog) (tables : Schema)
    (file : Option String) (ts : String) (hf : isFresh c = true) :
    (generateLucidMigration c tables file ts).code =
      wrapInBaseSchema (joinSep "\n\n" (freshUpBlocks tables))
        (joinSep "\n" (freshDownLines tables))
    ∧ (generateLucidMigration c tables file ts).code ≠ noopCode
    ∧ (activeTables tables = [] →
        (generateLucidMigration c tables file ts).code =
          wrapInBaseSchema "" "") := by
  have h := generateLucidMigration_fresh c tables file ts hf
  refine ⟨by rw [h], by rw [h]; exact wrapInBaseSchema_ne_noop _ _, ?_⟩
  intro hempty
  rw [h]
  unfold freshUpBlocks freshDownLines
  rw [hempty]
  rfl

/-- Witness for C10: the all-disabled schema against an empty catalog is
fresh, yields the wrapped document with empty bodies, and not the no-op
comment. -/
theorem C10_witness :
    isFresh emptyCatalog = true
    ∧ (generateLucidMigration emptyCatalog exC10Schema none "t").code =
        wrapInBaseSchema (joinSep "\n\n" (freshUpBlocks exC10Schema))
          (joinSep "\n" (freshDownLines exC10Schema))
    ∧ (generateLucidMigration emptyCatalog exC10Schema none "t").code ≠
        noopCode
    ∧ (generateLucidMigration emptyCatalog exC10Schema none "t").code =
        wrapInBaseSchema "" "" := by
  have h := C10_fresh_never_noop emptyCatalog exC10Schema none "t" (by decide)
  exact ⟨by decide, h.1, h.2.1, h.2.2 (by decide)⟩

/-- Claim C4 (confirmed): with no disabled tables and an empty catalog the
run is fresh, the code is the wrapped document whose up body holds one
creation block per processed table, in a list that is a permutation of all
tables, sorted ascending by `order ?? 999`, with ties kept in declaration
order (the sublist at any fixed order value is unchanged), and whose down
body is the reversed drop list. -/
theorem C4_fresh_one_block_per_table (c : Catalog) (tables : Schema)
    (file : Option String) (ts : String)
    (hnd : ((tables.map Prod.snd).all fun t => !t.disableMigrations) = true)
    (hcat : c.existingTables = []) :
    isFresh c = true
    ∧ (generateLucidMigration c tables file ts).code =
        wrapInBaseSchema
          (joinSep "\n\n" ((activeTables tables).map fun t =>
            generateCreateTableBlock t.modelName t.fields tables "    "))
          (joinSep "\n" (((activeTables tables).map dropTableStmt).reverse))
    ∧ List.Perm (activeTables tables) (tables.map Prod.snd)
    ∧ List.Sorted tableLE (activeTables tables)
    ∧ ∀ k : Int, (activeTables tables).filter (fun t => orderKey t == k) =
        (tables.map Prod.snd).filter fun t => orderKey t == k := by
  have hf : isFresh c = true := by simp [isFresh, hcat]
  have hfilter : (tables.map Prod.snd).filter (fun t => !t.disableMigrations)
      = tables.map Prod.snd :=
    List.filter_eq_self.mpr (List.all_eq_true.mp hnd)
  refine ⟨hf, ?_, ?_, ?_, ?_⟩
  · rw [generateLucidMigration_fresh c tables file ts hf]
    unfold freshUpBlocks freshDownLines
    rw [List.map_reverse]
  · have hp : List.Perm (activeTables tables)
        ((tables.map Prod.snd).filter fun t => !t.disableMigrations) :=
      List.perm_insertionSort tableLE _
    rw [hfilter] at hp
    exact hp
  · exact List.sorted_insertionSort tableLE _
  · intro k
    unfold activeTables
    rw [filter_key_insertionSort, hfilter]

/-- Witness for C4: three tables declared as `alpha (order 2)`,
`beta (order 1)`, `gamma (order 1)` sort to `beta, gamma, alpha` — the tie
keeps declaration order — and the fresh code wraps their blocks and the
reversed drops. -/
theorem C4_witness :
    ((exC4Schema.map Prod.snd).all fun t => !t.disableMigrations) = true
    ∧ emptyCatalog.existingTables = []
    ∧ isFresh emptyCatalog = true
    ∧ (generateLucidMigration emptyCatalog exC4Schema none "t").code =
        wrapInBaseSchema
          (joinSep "\n\n" ((activeTables exC4Schema).map fun t =>
            generateCreateTableBlock t.modelName t.fields exC4Schema "    "))
          (joinSep "\n" (((activeTables exC4Schema).map dropTableStmt).reverse))
    ∧ List.Perm (activeTables exC4Schema) (exC4Schema.map Prod.snd)
    ∧ List.Sorted tableLE (activeTables exC4Schema)
    ∧ (activeTables exC4Schema).filter (fun t => orderKey t == (1 : Int)) =
        (exC4Schema.map Prod.snd).filter (fun t => orderKey t == (1 : Int))
    ∧ (activeTables exC4Schema).map TableDefinition.modelName =
        ["beta", "gamma", "alpha"] := by
  have h := C4_fresh_one_block_per_table emptyCatalog exC4Schema none "t"
    (by decide) rfl
  exact ⟨by decide, rfl, h.1, h.2.1, h.2.2.1, h.2.2.2.1, h.2.2.2.2 1,
    by decide⟩

theorem goodNameB_iff (s : String) : goodNameB s = true ↔ goodName s := by
  unfold goodNameB goodName
  simp

/-- Claim C5 (confirmed): an active table that already exists and misses at
least one declared non-id column yields exactly one batched alteration
statement (and no creation statement) in up, and its rollback — dropping
exactly the newly added columns — is collected on the appended side of the
down sequence, after the reversed new-table drops.  The column names are
assumed nonempty and quote-free, as every real identifier is, so that the
regex extraction recovers each added column. -/
theorem C5_provisioned_add_columns (c : Catalog) (tables : Schema)
    (t : TableDefinition)
    (ht : t ∈ activeTables tables)
    (hex : tableIsNew c t = false)
    (hmiss : addColEntries c t ≠ [])
    (hclean : (t.fields.all fun kf =>
      goodNameB (getColumnName kf.1 kf.2)) = true) :
    upStmtsFor c tables t = [alterUpStmt c tables t]
    ∧ dropLines c tables t = (addColEntries c t).map (fun kf =>
        mkDropColumnLine (getColumnName kf.1 kf.2))
    ∧ alterDropFor c tables t = some (alterDownStmt c tables t)
    ∧ incrDownStatements c tables =
        (incrCreateDrops c tables).reverse ++ incrAlterDrops c tables
    ∧ alterDownStmt c tables t ∈ incrAlterDrops c tables := by
  have hclean' : ∀ kf ∈ t.fields, goodName (getColumnName kf.1 kf.2) :=
    fun kf hkf => (goodNameB_iff _).mp (List.all_eq_true.mp hclean kf hkf)
  have hlines : addColLines c tables t ≠ [] := by
    unfold addColLines
    simp only [ne_eq, List.map_eq_nil_iff]
    exact hmiss
  have hdrop := dropLines_eq c tables t hclean'
  have hdropne : dropLines c tables t ≠ [] := by
    rw [hdrop]
    simp only [ne_eq, List.map_eq_nil_iff]
    exact hmiss
  have halter : alterDropFor c tables t = some (alterDownStmt c tables t) := by
    unfold alterDropFor
    rw [hex]
    simp [List.isEmpty_eq_false.mpr hlines, List.isEmpty_eq_false.mpr hdropne]
  refine ⟨?_, hdrop, halter, incrDownStatements_eq c tables,
    List.mem_filterMap.mpr ⟨t, ht, halter⟩⟩
  unfold upStmtsFor
  rw [hex]
  simp [List.isEmpty_eq_false.mpr hlines]

/-- Witness for C5: a provisioned `user` table missing only the
`twoFactorEnabled` column gets exactly one alteration, and its rollback
drops exactly `two_factor_enabled` on the appended side of down. -/
theorem C5_witness :
    exC5User ∈ activeTables exC5Schema
    ∧ tableIsNew exC5Catalog exC5User = false
    ∧ addColEntries exC5Catalog exC5User ≠ []
    ∧ upStmtsFor exC5Catalog exC5Schema exC5User =
        [alterUpStmt exC5Catalog exC5Schema exC5User]
    ∧ dropLines exC5Catalog exC5Schema exC5User =
        [mkDropColumnLine "two_factor_enabled"]
    ∧ alterDropFor exC5Catalog exC5Schema exC5User =
        some (alterDownStmt exC5Catalog exC5Schema exC5User)
    ∧ incrDownStatements exC5Catalog exC5Schema =
        (incrCreateDrops exC5Catalog exC5Schema).reverse ++
          incrAlterDrops exC5Catalog exC5Schema
    ∧ alterDownStmt exC5Catalog exC5Schema exC5User ∈
        incrAlterDrops exC5Catalog exC5Schema := by
  have h := C5_provisioned_add_columns exC5Catalog exC5Schema exC5User
    (by decide) (by decide) (by decide) (by decide)
  exact ⟨by decide, by decide, by decide, h.1, by decide, h.2.2.1,
    h.2.2.2.1, h.2.2.2.2⟩

/-- Claim C6 (counterexample): against an empty (fresh) catalog the run
yields the full creation document, not the no-op artifact — and a second
run on the same unchanged catalog and schema returns the very same result,
since generation is a pure function of its inputs — so "running twice
always yields the no-op artifact" fails. -/
theorem C6_counterexample :
    (generateLucidMigration emptyCatalog exC6Schema none
      "20250101000000").code ≠ noopCode := by decide

/-- Claim C6 (amended): with the catalog in sync with the schema —
provisioned mode, every active table existing, no missing and no stray
columns — the run returns the no-op artifact; generation is pure, so an
unchanged second run returns it again. -/
theorem C6_amended_noop_when_in_sync (c : Catalog) (tables : Schema)
    (file : Option String) (ts : String)
    (h1 : c.existingTables.contains "user" = true)
    (h2 : ((activeTables tables).all fun t =>
      c.existingTables.contains t.modelName) = true)
    (h3 : ((activeTables tables).all fun t =>
      (addColEntries c t).isEmpty) = true)
    (h4 : ((activeTables tables).all fun t =>
      (colsOf c t.modelName).all fun col =>
        col == "id" || stillDesired t col) = true) :
    generateLucidMigration c tables file ts =
      { code := noopCode, path := file.getD (defaultPath ts)
        overwrite := false } := by
  have hf : isFresh c = false := by
    unfold isFresh
    rw [h1]
    rfl
  have hnew : ∀ t ∈ activeTables tables, tableIsNew c t = false := by
    intro t ht
    have hct := List.all_eq_true.mp h2 t ht
    unfold tableIsNew
    rw [hct]
    rfl
  have hup : incrUpStatements c tables = [] := by
    unfold incrUpStatements
    refine List.flatMap_eq_nil_iff.mpr ?_
    intro t ht
    have hadd : addColEntries c t = [] := by
      have := List.all_eq_true.mp h3 t ht
      simpa [List.isEmpty_iff] using this
    have haddlines : addColLines c tables t = [] := by
      simp [addColLines, hadd]
    simp [upStmtsFor, hnew t ht, haddlines]
  have hwarn : incrWarnings c tables = [] := by
    unfold incrWarnings
    rw [tableWarns_eq_nil, List.append_nil]
    refine List.flatMap_eq_nil_iff.mpr ?_
    intro t ht
    unfold colWarnsFor
    rw [hnew t ht]
    simp only [Bool.false_eq_true, if_false]
    refine List.flatMap_eq_nil_iff.mpr ?_
    intro col hcol
    have hcond := List.all_eq_true.mp (List.all_eq_true.mp h4 t ht) col hcol
    rcases (by simpa using hcond :
      (col == "id") = true ∨ stillDesired t col = true) with hcid | hdes
    · simp [hcid]
    · simp [hdes]
  exact generateLucidMigration_noop c tables file ts hf hup hwarn

/-- Witness for C6: a `user` table whose catalog already holds both
declared columns gives the no-op artifact. -/
theorem C6_witness :
    exC6SyncCatalog.existingTables.contains "user" = true
    ∧ ((activeTables exC6Schema).all fun t =>
        exC6SyncCatalog.existingTables.contains t.modelName) = true
    ∧ ((activeTables exC6Schema).all fun t =>
        (addColEntries exC6SyncCatalog t).isEmpty) = true
    ∧ ((activeTables exC6Schema).all fun t =>
        (colsOf exC6SyncCatalog t.modelName).all fun col =>
          col == "id" || stillDesired t col) = true
    ∧ generateLucidMigration exC6SyncCatalog exC6Schema none "t" =
        { code := noopCode, path := (none : Option String).getD (defaultPath "t")
          overwrite := false } :=
  ⟨by decide, by decide, by decide, by decide,
    C6_amended_noop_when_in_sync exC6SyncCatalog exC6Schema none "t"
      (by decide) (by decide) (by decide) (by decide)⟩

/-- Claim C7 (confirmed): a field with a foreign key receives a references
clause targeting the looked-up table's canonical `modelName` — or the raw
reference key when the lookup fails, without failing the run; an
unspecified on-delete action resolves to `CASCADE`; the chain of such a
field never ends in a plain `.index()` call even when `index` is set,
while a field without a foreign key and with `index` set does get one. -/
theorem C7_foreign_key_chain (tables : Schema) (k : String)
    (f f2 : DBFieldAttribute) (r : Refs)
    (h : f.references = some r) (h2 : f2.references = none) :
    buildColumnChain k f tables =
      chainBase k f ++ (".references(\x27" ++ r.field ++
        "\x27).inTable(\x27" ++ refTableName tables r.model ++
        "\x27).onDelete(\x27" ++ onDeleteAction r.onDelete ++ "\x27)")
    ∧ refTableName tables r.model =
        (List.lookup r.model tables).elim r.model TableDefinition.modelName
    ∧ onDeleteAction none = "CASCADE"
    ∧ ¬ endsIn (".index()" : String).data (buildColumnChain k f tables).data
    ∧ (f2.index = true →
        buildColumnChain k f2 tables = chainBase k f2 ++ ".index()") := by
  refine ⟨?_, ?_, by decide, ?_, ?_⟩
  · simp [buildColumnChain, chainTail, h]
  · cases hl : List.lookup r.model tables <;> simp [refTableName, hl]
  · rintro ⟨a, ha⟩
    have hsh : ∃ pre, (buildColumnChain k f tables).data =
        pre ++ [quoteChar, ')'] := by
      refine ⟨(chainBase k f ++ (".references(\x27" ++ r.field ++
        "\x27).inTable(\x27" ++ refTableName tables r.model ++
        "\x27).onDelete(\x27" ++ onDeleteAction r.onDelete)).data, ?_⟩
      simp [buildColumnChain, chainTail, h, String.data_append,
        List.append_assoc,
        show ("\x27)" : String).data = [quoteChar, ')'] from by decide]
      decide
    obtain ⟨pre, hpre⟩ := hsh
    rw [hpre] at ha
    rw [show (".index()" : String).data =
        ['.', 'i', 'n', 'd', 'e', 'x'] ++ ['(', ')'] from by decide,
      ← List.append_assoc] at ha
    have hsuf := (List.append_inj' ha (by rfl)).2
    exact absurd hsuf (by decide)
  · intro hidx
    simp [buildColumnChain, chainTail, h2, hidx]

/-- Witness for C7: the indexed FK field resolves `user` to `app_users`
with a `CASCADE` action and no `.index()`, the unknown key `missing` falls
back to itself, and the plain indexed field does get `.index()`. -/
theorem C7_witness :
    exC7Field.references = some exC7FK
    ∧ exC7Plain.references = none
    ∧ buildColumnChain "userId" exC7Field exC7Tables =
        chainBase "userId" exC7Field ++
          ".references(\x27id\x27).inTable(\x27app_users\x27).onDelete(\x27CASCADE\x27)"
    ∧ refTableName exC7Tables "user" = "app_users"
    ∧ refTableName exC7Tables "missing" = "missing"
    ∧ onDeleteAction none = "CASCADE"
    ∧ ¬ endsIn (".index()" : String).data
        (buildColumnChain "userId" exC7Field exC7Tables).data
    ∧ buildColumnChain "userId" exC7Plain exC7Tables =
        chainBase "userId" exC7Plain ++ ".index()" := by
  have h := C7_foreign_key_chain exC7Tables "userId" exC7Field exC7Plain
    exC7FK rfl rfl
  exact ⟨rfl, rfl, by decide, by decide, by decide, h.2.2.1, h.2.2.2.1,
    h.2.2.2.2 rfl⟩

theorem mkDropColumnLine_inj {a b : String}
    (h : mkDropColumnLine a = mkDropColumnLine b) : a = b := by
  unfold mkDropColumnLine at h
  have h' := congrArg String.data h
  simp only [String.data_append] at h'
  have h2 := (List.append_inj' h' (by rfl)).1
  have h3 := List.append_cancel_left h2
  cases a
  cases b
  exact congrArg String.mk h3

/-- Claim C9 (confirmed): in provisioned mode a catalog column of an
existing active table that is not `id` and matches no declared field
produces a warning line naming both the table and the column, and that
warning text occurs in the generated code; the rollback drop lines of that
table drop exactly the freshly added columns, so no drop statement for the
stray column exists — removal appears only inside the comment text of the
warning.  Column names are assumed nonempty and quote-free. -/
theorem C9_stray_column_never_dropped (c : Catalog) (tables : Schema)
    (t : TableDefinition) (col : String) (file : Option String) (ts : String)
    (hf : isFresh c = false)
    (ht : t ∈ activeTables tables)
    (hex : tableIsNew c t = false)
    (hcol : col ∈ colsOf c t.modelName)
    (hid : (col == "id") = false)
    (hdes : stillDesired t col = false)
    (hclean : (t.fields.all fun kf =>
      goodNameB (getColumnName kf.1 kf.2)) = true) :
    colWarnHead t.modelName col ∈ incrWarnings c tables
    ∧ dropLines c tables t = (addColEntries c t).map (fun kf =>
        mkDropColumnLine (getColumnName kf.1 kf.2))
    ∧ mkDropColumnLine col ∉ dropLines c tables t
    ∧ occursIn (colWarnHead t.modelName col).data
        (generateLucidMigration c tables file ts).code.data := by
  have hclean' : ∀ kf ∈ t.fields, goodName (getColumnName kf.1 kf.2) :=
    fun kf hkf => (goodNameB_iff _).mp (List.all_eq_true.mp hclean kf hkf)
  have hdrop := dropLines_eq c tables t hclean'
  have hwmem : colWarnHead t.modelName col ∈ colWarnsFor c t := by
    unfold colWarnsFor
    rw [hex]
    simp only [Bool.false_eq_true, if_false]
    refine List.mem_flatMap.mpr ⟨col, hcol, ?_⟩
    simp [hid, hdes, colWarnBody]
  have hw : colWarnHead t.modelName col ∈ incrWarnings c tables := by
    unfold incrWarnings
    exact List.mem_append_left _ (List.mem_flatMap.mpr ⟨t, ht, hwmem⟩)
  have hnotdrop : mkDropColumnLine col ∉ dropLines c tables t := by
    rw [hdrop]
    intro hmem
    rcases List.mem_map.mp hmem with ⟨kf, hkf, heq⟩
    have hname : getColumnName kf.1 kf.2 = col :=
      mkDropColumnLine_inj heq
    have hfilter := (List.mem_filter.mp hkf).2
    rw [hname] at hfilter
    simp only [Bool.and_eq_true, Bool.not_eq_true'] at hfilter
    have hcontains : (colsOf c t.modelName).contains col = true :=
      List.contains_iff_exists_mem_beq.mpr ⟨col, hcol, by simp⟩
    rw [hfilter.2] at hcontains
    cases hcontains
  have hwarnne : incrWarnings c tables ≠ [] := by
    intro hnil
    rw [hnil] at hw
    cases hw
  refine ⟨hw, hdrop, hnotdrop, ?_⟩
  rw [generateLucidMigration_incr c tables file ts hf (Or.inr hwarnne)]
  have hub : occursIn (colWarnHead t.modelName col).data
      (incrUpBody c tables).data := by
    unfold incrUpBody
    rw [List.isEmpty_eq_false.mpr hwarnne]
    simp only [Bool.false_eq_true, if_false]
    refine occursIn_joinSep "\n\n" _ _ ?_
    exact List.mem_append_right _ (List.mem_cons_of_mem _ hw)
  have hwrap : occursIn (incrUpBody c tables).data
      (wrapInBaseSchema (incrUpBody c tables) (incrDownBody c tables)).data := by
    unfold wrapInBaseSchema
    refine occursIn_joinSep "\n" _ _ ?_
    simp
  exact occursIn_trans hub hwrap

/-- Witness for C9: the stray `legacy_col` of the provisioned `user` table
is warned about — the warning text occurs in the generated code — while
the rollback drops only the freshly added `email` column. -/
theorem C9_witness :
    isFresh exC9Catalog = false
    ∧ exC9User ∈ activeTables exC9Schema
    ∧ tableIsNew exC9Catalog exC9User = false
    ∧ "legacy_col" ∈ colsOf exC9Catalog "user"
    ∧ (("legacy_col" : String) == "id") = false
    ∧ stillDesired exC9User "legacy_col" = false
    ∧ colWarnHead "user" "legacy_col" ∈ incrWarnings exC9Catalog exC9Schema
    ∧ dropLines exC9Catalog exC9Schema exC9User =
        (addColEntries exC9Catalog exC9User).map (fun kf =>
          mkDropColumnLine (getColumnName kf.1 kf.2))
    ∧ mkDropColumnLine "legacy_col" ∉ dropLines exC9Catalog exC9Schema exC9User
    ∧ occursIn (colWarnHead "user" "legacy_col").data
        (generateLucidMigration exC9Catalog exC9Schema none "t").code.data := by
  have h := C9_stray_column_never_dropped exC9Catalog exC9Schema exC9User
    "legacy_col" none "t" (by decide) (by decide) (by decide) (by decide)
    (by decide) (by decide) (by decide)
  exact ⟨by decide, by decide, by decide, by decide, by decide, by decide,
    h.1, h.2.1, h.2.2.1, h.2.2.2⟩
